import Mathlib

/-!
Shallow embedding of the branching-logic data-quality validator of the
repository (the two scripts `Old-Dataquality-Code/qualityCheckEnhanced.py`
and `Old-Dataquality-Code/qualityCheck.py`), together with theorems that
settle the specification claims about it.

Python strings are modelled as `List Char`; a pandas record row is an
association list from field name to string value (the scripts call
`fillna('')`, so every field of the schema is present, missing values being
the empty string).  Python exceptions that the scripts do not catch are
modelled by `Except String` (the error text naming the exception class);
the one exception the enhanced script catches (`KeyError` from a row
lookup) is modelled by `Option` at the lookup and handled exactly where
the script's `except KeyError:` handler sits.  Python `float` arithmetic
on the final percentage is modelled by `ℚ` (every score the theorems
mention is exactly representable).
-/

/-- A Python string: a list of characters. -/
abbrev Str := List Char

/-- Python slice `s[a:b]` for nonnegative `a`, `b` (clamping semantics). -/
def pySlice (a b : Nat) (l : Str) : Str := (l.take b).drop a

/-- Python slice `s[a:-1]`: from index `a` up to, excluding, the last
character of `s` (used by `qualityCheck.py` for `logic_number`). -/
def pySliceToLast (a : Nat) (l : Str) : Str := (l.drop a).dropLast

/-- A boolean connector of a branching-logic rule: the strings `'and'` /
`'or'` appended to a `process` by the enhanced script's parse loop. -/
inductive Connector where
  | and : Connector
  | or : Connector
deriving DecidableEq

/-- One entry of the enhanced script's `process` list: either a condition
`[[verVar, field_name], verNum]` (referenced field, governed field,
expected value) or a connector string. -/
inductive Clause where
  | cond (referenced governed expected : Str) : Clause
  | conn (c : Connector) : Clause
deriving DecidableEq

/-- A data record: association list from field name to raw string value. -/
abbrev Record := List (Str × Str)

/-- Row lookup `row[field]`; `none` models a `KeyError`. -/
def rowGet (row : Record) (f : Str) : Option Str :=
  match row with
  | [] => none
  | (k, v) :: rest => if k = f then some v else rowGet rest f

/-- The enhanced parse loop's handling of the text after a condition
(`qualityCheckEnhanced.py` lines 36-51): when more input follows the
closing quote, strip at most one leading space, classify the connector as
`or` exactly when the first remaining character is `'o'` (anything else,
including the token `and`, yields `and`), then cut the input at the next
`'['`.  `none` models the uncaught `IndexError` / `ValueError` the script
raises on inputs without that shape. -/
def afterCondition (logic1 : Str) : Option (Connector × Str) :=
  match logic1 with
  | [] => none
  | ch :: rest =>
    let logic2 := if ch = ' ' then rest else ch :: rest
    match logic2 with
    | [] => none
    | ch2 :: _ =>
      let k := if ch2 = 'o' then Connector.or else Connector.and
      match List.findIdx? (fun c => c = '[') logic2 with
      | some i => some (k, logic2.drop i)
      | none => none

/-- The three index lookups `logic.index('[')`, `logic.index(']')`,
`logic.index("'")` a parse-loop iteration performs; `none` models the
`ValueError` any of them raises when the character is absent. -/
def findIdx3 (logic : Str) : Option (Nat × Nat × Nat) :=
  match List.findIdx? (fun c => c = '[') logic,
        List.findIdx? (fun c => c = ']') logic,
        List.findIdx? (fun c => c = '\'') logic with
  | some i1, some i2, some q => some (i1, i2, q)
  | _, _, _ => none

/-- The enhanced script's `while logic != ''` parse loop
(`qualityCheckEnhanced.py` lines 23-54), one recursive step per loop
iteration.  Each step finds `'['`/`']'` for the referenced field, the
first `'\''` for the value (taking exactly the single character after it,
`verNum = logic[idx1:idx1+1]`), and `count = quote index + 3` points just
past the closing quote.  `fuel` bounds the iteration count (each step
strictly shortens `logic`, so `logic.length + 1` always suffices);
`none` models an uncaught exception aborting the script. -/
def parseLoop (governed : Str) : Nat → Str → List Clause → Option (List Clause)
  | 0, _, _ => none
  | fuel + 1, logic, process =>
    if logic = [] then some process
    else
      match findIdx3 logic with
      | some (i1, i2, q) =>
        if q + 3 ≠ logic.length then
          match afterCondition (logic.drop (q + 3)) with
          | some (k, rest) =>
            parseLoop governed fuel rest
              (process ++ [Clause.cond (pySlice (i1 + 1) i2 logic) governed
                             (pySlice (q + 1) (q + 2) logic),
                           Clause.conn k])
          | none => none
        else
          some (process ++ [Clause.cond (pySlice (i1 + 1) i2 logic) governed
                              (pySlice (q + 1) (q + 2) logic)])
      | none => none

/-- Compile one branching-logic string for its governed field: run the
parse loop with enough fuel. -/
def compile (governed : Str) (logic : Str) : Option (List Clause) :=
  parseLoop governed (logic.length + 1) logic []

/-- The `fullBranchingLogics` list (`qualityCheckEnhanced.py` lines
17-20): keep rows whose `branching_logic` is non-empty, as pairs
`[branching_logic, field_name]`. -/
def fullBranchingLogics (metadata : List (Str × Str)) : List (Str × Str) :=
  (metadata.filter (fun r => r.2 ≠ ([] : Str))).map (fun r => (r.2, r.1))

/-- The `processes` list: compile every kept metadata row
(`qualityCheckEnhanced.py` lines 22-56). -/
def compileAll (metadata : List (Str × Str)) : Option (List (List Clause)) :=
  (fullBranchingLogics metadata).mapM (fun bl => compile bl.2 bl.1)

/-- One token of the `conditionString` the enhanced checker hands to
Python `eval`: a `1`/`0` literal or an `and`/`or` operator. -/
inductive Token where
  | val (b : Bool) : Token
  | op (c : Connector) : Token
deriving DecidableEq

/-- Build the `conditionString` token sequence for a process against a row
(`qualityCheckEnhanced.py` lines 98-107): a connector item contributes its
operator, a condition item contributes `1` when `row[referenced] ==
expected` and `0` otherwise.  `none` models the `KeyError` raised when a
referenced field is absent from the row (caught by the enclosing handler). -/
def buildTokens (row : Record) : List Clause → Option (List Token)
  | [] => some []
  | Clause.conn k :: rest => (buildTokens row rest).map (fun ts => Token.op k :: ts)
  | Clause.cond ref _ exp :: rest =>
    match rowGet row ref with
    | none => none
    | some v => (buildTokens row rest).map (fun ts => Token.val (decide (v = exp)) :: ts)

/-- Python's evaluation of a chain `b (k1 b1) (k2 b2) ...` of `0`/`1`
literals joined by `and`/`or`, as performed by `eval(conditionString)`:
`and` binds tighter than `or` (Python operator precedence), so an `or`
delimits the conjunctive group accumulated so far. -/
def pyEvalChain (b : Bool) : List (Connector × Bool) → Bool
  | [] => b
  | (Connector.and, b2) :: rest => pyEvalChain (b && b2) rest
  | (Connector.or, b2) :: rest => b || pyEvalChain b2 rest

/-- Parse the tail of a token sequence into `(connector, literal)` pairs;
`none` models the `SyntaxError` Python `eval` raises on a sequence that
does not alternate literal/operator. -/
def chainRest : List Token → Option (List (Connector × Bool))
  | [] => some []
  | Token.op k :: Token.val b :: rest => (chainRest rest).map (fun l => (k, b) :: l)
  | _ => none

/-- `eval(conditionString)`: the sequence must start with a literal and
alternate; the result is its Python boolean value. -/
def pyEvalTokens (ts : List Token) : Option Bool :=
  match ts with
  | Token.val b :: rest => (chainRest rest).map (pyEvalChain b)
  | _ => none

/-- The enhanced checker's rule evaluation on a row: build the condition
tokens, then evaluate them as Python does. -/
def evalRuleOnRow (row : Record) (p : List Clause) : Option Bool :=
  (buildTokens row p).bind pyEvalTokens

/-- Modelled from the spec: flat left-to-right chain evaluation with no
operator-precedence distinction between AND and OR, the semantics the
spec asserts for the enhanced checker (`((c1 OR c2) AND c3)` for
`c1 or c2 and c3`).  Used only to compare against the code's evaluation. -/
def flatEvalChain (b : Bool) : List (Connector × Bool) → Bool
  | [] => b
  | (Connector.and, b2) :: rest => flatEvalChain (b && b2) rest
  | (Connector.or, b2) :: rest => flatEvalChain (b || b2) rest

/-- Modelled from the spec: the flat-chain evaluation of a token sequence
(spec-side counterpart of `pyEvalTokens`). -/
def flatEvalTokens (ts : List Token) : Option Bool :=
  match ts with
  | Token.val b :: rest => (chainRest rest).map (flatEvalChain b)
  | _ => none

/-- Modelled from the spec: flat-chain rule evaluation on a row
(spec-side counterpart of `evalRuleOnRow`). -/
def flatEvalRuleOnRow (row : Record) (p : List Clause) : Option Bool :=
  (buildTokens row p).bind flatEvalTokens

/-- One violation entry of the enhanced script's `wrongRows`: the eval
branch appends `[index, first referenced field]`; the (unreachable for
compiled processes) `processSize == 2` branch appends the process itself. -/
inductive WrongEntry where
  | pair (index : Nat) (field : Str) : WrongEntry
  | rule (p : List Clause) : WrongEntry
deriving DecidableEq

/-- The enhanced checker's mutable run state: the `count` accumulator, the
`wrongRows` list and the warnings printed by the `except KeyError`
handlers (in print order). -/
structure QState where
  count : Nat
  wrongRows : List WrongEntry
  warnings : List Str
deriving DecidableEq

/-- The suffix of every `not in dataframe` warning message. -/
def nidMsg : Str := (" not in dataframe").toList

/-- One (row, process) step of the enhanced checker loop
(`qualityCheckEnhanced.py` lines 80-116).  `count` is incremented first.
The `processSize == 2` branch is unreachable for compiled processes (their
length is always odd); it indexes the first condition as if it were the
process (`process[0][1]` is the condition's expected value, looked up as a
field name) and its inner comparison `row[process[0][0]] == process[1]`
compares a two-field sub-series against a clause, which pandas answers
with a series whose boolean context raises `ValueError` — modelled by
`Except.error`.  The eval branch guards on the governed field
(`row[process[0][0][1]] != ''`), builds and evaluates `conditionString`,
and on a false rule appends `[index, process[0][0][0]]` to `wrongRows` and
decrements `count`; a `KeyError` anywhere inside is caught and prints
`process[0][0][1]` (the governed field) with `not in dataframe`.  A
process whose first item is not a condition would make the script index a
Python string or an empty list — an uncaught error, modelled by
`Except.error`. -/
def checkPair (st : QState) (idx : Nat) (row : Record) (p : List Clause) :
    Except String QState :=
  let st1 : QState := { st with count := st.count + 1 }
  if p.length = 2 then
    match p with
    | Clause.cond ref gov exp :: _ =>
      match rowGet row exp with
      | none => Except.ok { st1 with warnings := st1.warnings ++ [exp ++ nidMsg] }
      | some v =>
        if v = ([] : Str) then Except.ok st1
        else
          match rowGet row ref, rowGet row gov with
          | some _, some _ => Except.error "ValueError"
          | _, _ => Except.ok { st1 with warnings := st1.warnings ++ [exp ++ nidMsg] }
    | _ => Except.error "TypeError"
  else
    match p with
    | Clause.cond ref0 gov0 _ :: _ =>
      match rowGet row gov0 with
      | none => Except.ok { st1 with warnings := st1.warnings ++ [gov0 ++ nidMsg] }
      | some v =>
        if v = ([] : Str) then Except.ok st1
        else
          match buildTokens row p with
          | none => Except.ok { st1 with warnings := st1.warnings ++ [gov0 ++ nidMsg] }
          | some ts =>
            match pyEvalTokens ts with
            | none => Except.error "SyntaxError"
            | some b =>
              if b = false then
                Except.ok { st1 with count := st1.count - 1,
                                     wrongRows := st1.wrongRows ++ [WrongEntry.pair idx ref0] }
              else Except.ok st1
    | _ => Except.error "TypeError"

/-- The inner `for process in processes` loop for one row. -/
def checkRow (idx : Nat) (row : Record) : QState → List (List Clause) → Except String QState
  | st, [] => Except.ok st
  | st, p :: ps =>
    match checkPair st idx row p with
    | Except.ok st2 => checkRow idx row st2 ps
    | Except.error e => Except.error e

/-- The outer `for index, row in redcapDB.iterrows()` loop; `idx` threads
the default integer row index. -/
def checkAll (ps : List (List Clause)) : QState → Nat → List Record → Except String QState
  | st, _, [] => Except.ok st
  | st, idx, row :: rows =>
    match checkRow idx row st ps with
    | Except.ok st2 => checkAll ps st2 (idx + 1) rows
    | Except.error e => Except.error e

/-- Run the whole enhanced checker loop from the empty state. -/
def runChecker (records : List Record) (ps : List (List Clause)) : Except String QState :=
  checkAll ps ⟨0, [], []⟩ 0 records

/-- The final print `(count / (redcapDB.shape[0] * len(processes))) * 100`
(`qualityCheckEnhanced.py` line 124): a `ZeroDivisionError` when the
denominator is zero, otherwise the exact rational value of the float. -/
def finalQuality (c : Nat) (nRecords nProcesses : Nat) : Except String ℚ :=
  if nRecords * nProcesses = 0 then Except.error "ZeroDivisionError"
  else Except.ok (((c : ℚ) / ((nRecords : ℚ) * (nProcesses : ℚ))) * 100)

/-- The whole enhanced run: compile the metadata, run the checker loop,
compute the quality percentage.  An uncaught exception anywhere aborts
the script (`Except.error`). -/
def runQualityEnhanced (metadata : List (Str × Str)) (records : List Record) :
    Except String (QState × ℚ) :=
  match compileAll metadata with
  | none => Except.error "ValueError"
  | some ps =>
    match runChecker records ps with
    | Except.error e => Except.error e
    | Except.ok st =>
      match finalQuality st.count records.length ps.length with
      | Except.error e => Except.error e
      | Except.ok q => Except.ok (st, q)

/-- Parse one metadata row in `qualityCheck.py` (lines 37-50): the
referenced field is the text between the first `'['` and the first `']'`,
and `logic_number` is `branching_logic[first quote + 1 : -1]` — everything
after the first quote up to, excluding, the last character of the whole
string.  Returns `(field_name, logic_field, logic_number)`; `none` models
the uncaught `ValueError` of a missing bracket or quote. -/
def simpleParseRow (fieldName bl : Str) : Option (Str × Str × Str) :=
  match List.findIdx? (fun c => c = '[') bl,
        List.findIdx? (fun c => c = ']') bl,
        List.findIdx? (fun c => c = '\'') bl with
  | some i1, some i2, some i3 =>
    some (fieldName, pySlice (i1 + 1) i2 bl, pySliceToLast (i3 + 1) bl)
  | _, _, _ => none

/-- The `branchingLogic` list of `qualityCheck.py`: one entry per metadata
row with non-empty `branching_logic`. -/
def simpleCompile : List (Str × Str) → Option (List (Str × Str × Str))
  | [] => some []
  | (name, bl) :: rest =>
    if bl = ([] : Str) then simpleCompile rest
    else
      match simpleParseRow name bl with
      | some r => (simpleCompile rest).map (fun l => r :: l)
      | none => none

/-- `db2[col]`: the column of a table (list of rows sharing a schema);
`none` models the uncaught `KeyError` when the column is absent. -/
def tableColumn (records : List Record) (col : Str) : Option (List Str) :=
  records.mapM (fun r => rowGet r col)

/-- pandas semantics of `if series != '':` — the comparison produces a
boolean series, whose boolean context raises `ValueError` unless the
series has exactly one element. -/
def seriesNonemptyTruth (vs : List Str) : Except String Bool :=
  match vs with
  | [v] => Except.ok (decide (v ≠ ([] : Str)))
  | _ => Except.error "ValueError"

/-- One (row index, rule) step of the `qualityCheck.py` checker loop
(lines 53-57): `if db2[logic[0]][i] == logic[2]` compares the governed
field's value at row `i` against the extracted literal, and the inner
test `if db2[logic[1]] != ''` puts a whole column in boolean context.
Neither `KeyError` nor `ValueError` is caught in this script. -/
def simpleCheckOne (records : List Record) (i : Nat) (rule : Str × Str × Str)
    (count : Nat) : Except String Nat :=
  match tableColumn records rule.1 with
  | none => Except.error "KeyError"
  | some col =>
    match col.get? i with
    | none => Except.error "IndexError"
    | some v =>
      if v = rule.2.2 then
        match tableColumn records rule.2.1 with
        | none => Except.error "KeyError"
        | some col2 =>
          match seriesNonemptyTruth col2 with
          | Except.error e => Except.error e
          | Except.ok true => Except.ok (count + 1)
          | Except.ok false => Except.ok count
      else Except.ok count

/-- The inner `for logic in branchingLogic` loop for row `i`. -/
def simpleCheckRow (records : List Record) (i : Nat) :
    Nat → List (Str × Str × Str) → Except String Nat
  | count, [] => Except.ok count
  | count, rule :: rules =>
    match simpleCheckOne records i rule count with
    | Except.ok c2 => simpleCheckRow records i c2 rules
    | Except.error e => Except.error e

/-- The outer `for i in range(db2.shape[0])` loop. -/
def simpleCheckAll (records : List Record) (rules : List (Str × Str × Str)) :
    Nat → Nat → Except String Nat
  | count, 0 => Except.ok count
  | count, n + 1 =>
    match simpleCheckRow records (records.length - (n + 1)) count rules with
    | Except.ok c2 => simpleCheckAll records rules c2 n
    | Except.error e => Except.error e

/-- The whole `qualityCheck.py` run: build `branchingLogic`, run the
loops, print `((db1.shape[0] - count) / db1.shape[0]) * 100` where
`db1.shape[0]` is the number of metadata rows (all of them, also those
with empty branching logic). -/
def runQualitySimple (metadata : List (Str × Str)) (records : List Record) :
    Except String (Nat × ℚ) :=
  match simpleCompile metadata with
  | none => Except.error "ValueError"
  | some rules =>
    match simpleCheckAll records rules 0 records.length with
    | Except.error e => Except.error e
    | Except.ok c =>
      if metadata.length = 0 then Except.error "ZeroDivisionError"
      else
        Except.ok (c, (((metadata.length : ℚ) - (c : ℚ)) / (metadata.length : ℚ)) * 100)

/-- A clause is a condition. -/
def isCond : Clause → Bool
  | Clause.cond _ _ _ => true
  | Clause.conn _ => false

/-- A clause is a connector. -/
def isConn : Clause → Bool
  | Clause.cond _ _ _ => false
  | Clause.conn _ => true

/-- Number of Conditions of a compiled rule. -/
def numConds (ps : List Clause) : Nat := ps.countP isCond

/-- Number of Connectors of a compiled rule. -/
def numConns (ps : List Clause) : Nat := ps.countP isConn

/-- A clause list alternates Condition/Connector/…/Condition (so it is
nonempty, starts and ends with a Condition, and has odd length). -/
def chainOk : List Clause → Bool
  | [] => false
  | [c] => isCond c
  | c :: k :: rest => isCond c && isConn k && chainOk rest

/-- A clause list of the shape (Condition Connector)*: the accumulator
shape of the parse loop before its final Condition is appended. -/
def evenChain : List Clause → Bool
  | [] => true
  | [_] => false
  | c :: k :: rest => isCond c && isConn k && evenChain rest

/-- Modelled from the spec: skip a single optional leading space (the
connector-classification wording of the spec). -/
def skipOneSpace : Str → Str
  | [] => []
  | ch :: rest => if ch = ' ' then rest else ch :: rest

/-- Modelled from the spec: the quality-score formula the spec asserts,
`(consistent_count / total_checked) × 100` with `total_checked` = records
× rules minus the pairs skipped on a missing field, and the skipped pairs
also excluded from the numerator.  Used only to compare against the
code's score. -/
def specScoreSkipAware (nRecords nRules skipped violations : Nat) : Option ℚ :=
  let total := nRecords * nRules - skipped
  if total = 0 then none
  else some (((total - violations : Nat) : ℚ) / (total : ℚ) * 100)

theorem findIdx?_lt_add {α : Type} {p : α → Bool} :
    ∀ {l : List α} {s i : Nat}, List.findIdx? p l s = some i → i < s + l.length
  | [], s, i, h => by simp [List.findIdx?] at h
  | a :: l, s, i, h => by
    rw [List.findIdx?_cons] at h
    by_cases hp : p a
    · rw [if_pos hp] at h
      simp only [Option.some.injEq] at h
      simp [← h]
    · rw [if_neg hp] at h
      have := findIdx?_lt_add (l := l) (s := s + 1) h
      simp only [List.length_cons]
      omega

theorem findIdx?_lt_length {α : Type} {p : α → Bool} {l : List α} {i : Nat}
    (h : List.findIdx? p l = some i) : i < l.length := by
  have := findIdx?_lt_add (s := 0) h
  omega

theorem afterCondition_rest_ne_nil {l rest : Str} {k : Connector}
    (h : afterCondition l = some (k, rest)) : rest ≠ [] := by
  unfold afterCondition at h
  cases l with
  | nil => simp at h
  | cons ch tl =>
    simp only at h
    split at h
    · simp at h
    next ch2 _ heq =>
      split at h
      next i hi =>
        simp only [Option.some.injEq, Prod.mk.injEq] at h
        obtain ⟨-, rfl⟩ := h
        have hlt := findIdx?_lt_length hi
        intro hnil
        rw [List.drop_eq_nil_iff] at hnil
        omega
      · simp at h

theorem evenChain_append_cond : ∀ {acc : List Clause} {c : Clause},
    evenChain acc = true → isCond c = true → chainOk (acc ++ [c]) = true
  | [], c, _, hc => by simpa [chainOk] using hc
  | [_], _, ha, _ => by simp [evenChain] at ha
  | a :: k :: rest, c, ha, hc => by
    simp only [evenChain, Bool.and_eq_true] at ha
    obtain ⟨⟨h1, h2⟩, h3⟩ := ha
    have := evenChain_append_cond h3 hc
    simp [chainOk, h1, h2, this]

theorem evenChain_append_pair : ∀ {acc : List Clause} {c k : Clause},
    evenChain acc = true → isCond c = true → isConn k = true →
    evenChain (acc ++ [c, k]) = true
  | [], c, k, _, hc, hk => by simp [evenChain, hc, hk]
  | [_], _, _, ha, _, _ => by simp [evenChain] at ha
  | a :: b :: rest, c, k, ha, hc, hk => by
    simp only [evenChain, Bool.and_eq_true] at ha
    obtain ⟨⟨h1, h2⟩, h3⟩ := ha
    have := evenChain_append_pair h3 hc hk
    simp [evenChain, h1, h2, this]

theorem chainOk_count : ∀ {ps : List Clause}, chainOk ps = true →
    numConds ps = numConns ps + 1
  | [], h => by simp [chainOk] at h
  | [c], h => by
    simp only [chainOk] at h
    cases c with
    | cond r g e =>
      simp [numConds, numConns, List.countP_cons, List.countP_nil, isCond, isConn]
    | conn k => simp [isCond] at h
  | c :: k :: rest, h => by
    simp only [chainOk, Bool.and_eq_true] at h
    obtain ⟨⟨h1, h2⟩, h3⟩ := h
    have ih := chainOk_count h3
    cases c with
    | cond r g e =>
      cases k with
      | conn kk =>
        simp only [numConds, numConns, List.countP_cons, isCond, isConn] at ih ⊢
        omega
      | cond r2 g2 e2 => simp [isConn] at h2
    | conn kk => simp [isCond] at h1

theorem chainOk_pos {ps : List Clause} (h : chainOk ps = true) : 1 ≤ numConds ps := by
  have := chainOk_count h
  omega

theorem parseLoop_chain {g : Str} : ∀ {fuel : Nat} {logic : Str} {acc ps : List Clause},
    parseLoop g fuel logic acc = some ps → evenChain acc = true → logic ≠ [] →
    chainOk ps = true
  | 0, _, _, _, h, _, _ => by simp [parseLoop] at h
  | fuel + 1, logic, acc, ps, h, hacc, hne => by
    unfold parseLoop at h
    rw [if_neg hne] at h
    cases h3 : findIdx3 logic with
    | none => rw [h3] at h; simp at h
    | some t =>
      obtain ⟨i1, i2, q⟩ := t
      rw [h3] at h
      dsimp only at h
      by_cases hq : q + 3 = logic.length
      · rw [if_neg (by omega)] at h
        simp only [Option.some.injEq] at h
        subst h
        exact evenChain_append_cond hacc rfl
      · rw [if_pos (by omega)] at h
        cases ha : afterCondition (logic.drop (q + 3)) with
        | none => rw [ha] at h; simp at h
        | some kr =>
          obtain ⟨k, rest⟩ := kr
          rw [ha] at h
          have hrest := afterCondition_rest_ne_nil ha
          have hacc2 : evenChain (acc ++
              [Clause.cond (pySlice (i1 + 1) i2 logic) g (pySlice (q + 1) (q + 2) logic),
               Clause.conn k]) = true :=
            evenChain_append_pair hacc rfl rfl
          exact parseLoop_chain h hacc2 hrest

/-- A condition clause carries a single-character expected value
(vacuously true of connectors). -/
def expectedLen1 (c : Clause) : Bool :=
  match c with
  | Clause.cond _ _ e => e.length = 1
  | Clause.conn _ => true

theorem pySlice_one_length {l : Str} {q : Nat} (h : q + 2 ≤ l.length) :
    (pySlice (q + 1) (q + 2) l).length = 1 := by
  simp only [pySlice, List.length_drop, List.length_take]
  omega

theorem afterCondition_arg_ne_nil {l : Str} {v : Connector × Str}
    (h : afterCondition l = some v) : l ≠ [] := by
  intro hnil
  rw [hnil] at h
  simp [afterCondition] at h

theorem parseLoop_expected {g : Str} : ∀ {fuel : Nat} {logic : Str} {acc ps : List Clause},
    parseLoop g fuel logic acc = some ps → acc.all expectedLen1 = true →
    ps.all expectedLen1 = true
  | 0, _, _, _, h, _ => by simp [parseLoop] at h
  | fuel + 1, logic, acc, ps, h, hacc => by
    unfold parseLoop at h
    by_cases hne : logic = []
    · rw [if_pos hne] at h
      simp only [Option.some.injEq] at h
      subst h
      exact hacc
    · rw [if_neg hne] at h
      cases h3 : findIdx3 logic with
      | none => rw [h3] at h; simp at h
      | some t =>
        obtain ⟨i1, i2, q⟩ := t
        rw [h3] at h
        dsimp only at h
        by_cases hq : q + 3 = logic.length
        · rw [if_neg (by omega)] at h
          simp only [Option.some.injEq] at h
          subst h
          rw [List.all_append, hacc]
          simp [expectedLen1, pySlice_one_length (by omega : q + 2 ≤ logic.length)]
        · rw [if_pos (by omega)] at h
          cases ha : afterCondition (logic.drop (q + 3)) with
          | none => rw [ha] at h; simp at h
          | some kr =>
            obtain ⟨k, rest⟩ := kr
            rw [ha] at h
            have hdrop := afterCondition_arg_ne_nil ha
            rw [ne_eq, List.drop_eq_nil_iff] at hdrop
            have hacc2 : (acc ++
                [Clause.cond (pySlice (i1 + 1) i2 logic) g (pySlice (q + 1) (q + 2) logic),
                 Clause.conn k]).all expectedLen1 = true := by
              rw [List.all_append, hacc]
              simp [expectedLen1, pySlice_one_length (by omega : q + 2 ≤ logic.length)]
            exact parseLoop_expected h hacc2

theorem checkPair_invariant {st st2 : QState} {idx : Nat} {row : Record}
    {p : List Clause} (h : checkPair st idx row p = Except.ok st2) :
    st2.count + st2.wrongRows.length = st.count + st.wrongRows.length + 1 ∧
    st.warnings.length ≤ st2.warnings.length := by
  unfold checkPair at h
  dsimp only at h
  repeat' split at h
  any_goals exact Except.noConfusion h
  all_goals
    simp only [Except.ok.injEq] at h
  all_goals
    subst h
  all_goals
    simp only [List.length_append, List.length_cons, List.length_nil]
  all_goals
    omega

theorem checkRow_invariant {idx : Nat} {row : Record} :
    ∀ {st st2 : QState} {ps : List (List Clause)},
    checkRow idx row st ps = Except.ok st2 →
    st2.count + st2.wrongRows.length = st.count + st.wrongRows.length + ps.length ∧
    st.warnings.length ≤ st2.warnings.length
  | st, st2, [], h => by
    simp only [checkRow, Except.ok.injEq] at h
    subst h
    simp
  | st, st2, p :: ps, h => by
    simp only [checkRow] at h
    cases hp : checkPair st idx row p with
    | error e => rw [hp] at h; simp at h
    | ok st3 =>
      rw [hp] at h
      have h1 := checkPair_invariant hp
      have h2 := checkRow_invariant h
      simp only [List.length_cons]
      omega

theorem checkAll_invariant {ps : List (List Clause)} :
    ∀ {st st2 : QState} {idx : Nat} {rows : List Record},
    checkAll ps st idx rows = Except.ok st2 →
    st2.count + st2.wrongRows.length =
      st.count + st.wrongRows.length + rows.length * ps.length ∧
    st.warnings.length ≤ st2.warnings.length
  | st, st2, idx, [], h => by
    simp only [checkAll, Except.ok.injEq] at h
    subst h
    simp
  | st, st2, idx, row :: rows, h => by
    simp only [checkAll] at h
    cases hr : checkRow idx row st ps with
    | error e => rw [hr] at h; simp at h
    | ok st3 =>
      rw [hr] at h
      have h1 := checkRow_invariant hr
      have h2 := checkAll_invariant h
      simp only [List.length_cons]
      have : (rows.length + 1) * ps.length = rows.length * ps.length + ps.length := by ring
      omega

/-- Prepend a literal to the first conjunctive group. -/
def consHead (x : Bool) : List (List Bool) → List (List Bool)
  | [] => [[x]]
  | g :: gs => (x :: g) :: gs

/-- The conjunctive groups of a connector chain: maximal runs of literals
joined by `and`, delimited by `or`. -/
def orGroups (b : Bool) : List (Connector × Bool) → List (List Bool)
  | [] => [[b]]
  | (Connector.and, b2) :: rest => consHead b (orGroups b2 rest)
  | (Connector.or, b2) :: rest => [b] :: orGroups b2 rest

theorem orGroups_ne_nil {b : Bool} {l : List (Connector × Bool)} :
    orGroups b l ≠ [] := by
  cases l with
  | nil => simp [orGroups]
  | cons hd tl =>
    obtain ⟨k, b2⟩ := hd
    cases k with
    | and =>
      simp only [orGroups]
      cases horGroups : orGroups b2 tl with
      | nil => simp [consHead]
      | cons g gs => simp [consHead]
    | or => simp [orGroups]

theorem consHead_anyAll {x b : Bool} {l : List (Connector × Bool)} :
    (consHead x (orGroups b l)).any (fun g => g.all id) =
      (orGroups (x && b) l).any (fun g => g.all id) := by
  cases l with
  | nil => simp [orGroups, consHead, Bool.and_assoc]
  | cons hd tl =>
    obtain ⟨k, b2⟩ := hd
    cases k with
    | and =>
      simp only [orGroups]
      cases hG : orGroups b2 tl with
      | nil => exact absurd hG orGroups_ne_nil
      | cons g gs => simp [consHead, Bool.and_assoc]
    | or => simp [orGroups, consHead, Bool.and_assoc]

theorem pyEvalChain_eq_orGroups :
    ∀ (l : List (Connector × Bool)) (b : Bool),
    pyEvalChain b l = (orGroups b l).any (fun g => g.all id)
  | [], b => by simp [pyEvalChain, orGroups]
  | (Connector.and, b2) :: rest, b => by
    simp only [pyEvalChain, orGroups]
    rw [pyEvalChain_eq_orGroups rest (b && b2)]
    exact (consHead_anyAll (x := b) (b := b2) (l := rest)).symm
  | (Connector.or, b2) :: rest, b => by
    simp only [pyEvalChain, orGroups]
    rw [pyEvalChain_eq_orGroups rest b2]
    simp

/-! Claim-specific concrete inputs. -/

def c1Gov : Str := ("g").toList

def c1Logic : Str := ("[a] = '1' or [b] = '1' and [c] = '1'").toList

def c1Row : Record :=
  [(("a").toList, ("1").toList), (("b").toList, ("0").toList),
   (("c").toList, ("0").toList), (("g").toList, ("x").toList)]

def c1Process : List Clause := (compile c1Gov c1Logic).getD []

/-- C1: counterexample.  The compiled rule `[a] = '1' or [b] = '1' and
[c] = '1'` has three Conditions, and on a record with `a = 1`, `b = 0`,
`c = 0` and a non-empty governed field the enhanced checker's evaluation
(Python `eval`, where `and` binds tighter than `or`) yields `true` — so
the pair is counted consistent with no violation — while the flat
left-to-right chain the claim asserts yields `((1 OR 0) AND 0) = false`.
The two evaluations disagree, refuting the claim at this input. -/
theorem c1_counterexample :
    2 ≤ numConds c1Process ∧
    rowGet c1Row c1Gov = some (("x").toList) ∧
    evalRuleOnRow c1Row c1Process = some true ∧
    flatEvalRuleOnRow c1Row c1Process = some false ∧
    checkPair ⟨0, [], []⟩ 0 c1Row c1Process = Except.ok ⟨1, [], []⟩ :=
  ⟨by decide, rfl, rfl, rfl, rfl⟩

/-- C1 (amended): the enhanced checker's evaluation combines the
Conditions' truth values with Python operator precedence — maximal runs
of `and`-joined conditions are evaluated first and the resulting groups
are `or`-ed together — not as a flat left-to-right chain; in particular
`c1 or c2 and c3` evaluates to `c1 OR (c2 AND c3)`. -/
theorem c1_amended :
    (∀ (b : Bool) (l : List (Connector × Bool)),
      pyEvalChain b l = (orGroups b l).any (fun g => g.all id)) ∧
    (∀ b1 b2 b3 : Bool,
      pyEvalChain b1 [(Connector.or, b2), (Connector.and, b3)] = (b1 || (b2 && b3))) := by
  constructor
  · exact fun b l => pyEvalChain_eq_orGroups l b
  · intro b1 b2 b3
    simp [pyEvalChain]

def c2Meta : List (Str × Str) :=
  [(("symptom_detail").toList, ("[has_symptom] = '1'").toList)]

def c2Recs : List Record :=
  [[(("has_symptom").toList, ("1").toList), (("symptom_detail").toList, ([] : Str))],
   [(("has_symptom").toList, ("1").toList), (("symptom_detail").toList, ("fever").toList)],
   [(("has_symptom").toList, ("0").toList), (("symptom_detail").toList, ([] : Str))]]

/-- C2: counterexample.  On the spec's scenario the enhanced run reports
no violation at all (the first record's governed field is empty, and the
enhanced checker never flags a record whose governed field is empty) and
a quality score of 100, not 1 violation and 200/3. -/
theorem c2_counterexample :
    runQualityEnhanced c2Meta c2Recs = Except.ok (⟨3, [], []⟩, (100 : ℚ)) ∧
    (0 : Nat) ≠ 1 ∧ (100 : ℚ) ≠ 200 / 3 := by
  refine ⟨?_, by decide, by norm_num⟩
  have h : runQualityEnhanced c2Meta c2Recs =
      Except.ok (⟨3, [], []⟩,
        (((3 : Nat) : ℚ) / (((3 : Nat) : ℚ) * ((1 : Nat) : ℚ))) * 100) := rfl
  rw [h]
  norm_num

/-- C2 (amended): on the scenario metadata and records, the enhanced run
reports 0 violations and a quality score of 100, because the enhanced
checker only flags a record whose governed field is populated while the
rule evaluates false, and never one whose governed field is empty. -/
theorem c2_amended :
    runQualityEnhanced c2Meta c2Recs = Except.ok (⟨3, [], []⟩, (100 : ℚ)) := by
  have h : runQualityEnhanced c2Meta c2Recs =
      Except.ok (⟨3, [], []⟩,
        (((3 : Nat) : ℚ) / (((3 : Nat) : ℚ) * ((1 : Nat) : ℚ))) * 100) := rfl
  rw [h]
  norm_num

def c3Gov : Str := ("f").toList

def c3Logic : Str := ("[x] = '10' and [y] = '2'").toList

def c3Process : List Clause := (compile c3Gov c3Logic).getD []

/-- C3: counterexample.  For the branching logic `[x] = '10' and [y] =
'2'` the opening quote of the first literal is at index 6, so the two
characters immediately following it are `10`; the compiler nevertheless
extracts the single character `1` as the expected value.  The extraction
is one character wide, not two. -/
theorem c3_counterexample :
    c3Process = [Clause.cond (("x").toList) c3Gov (("1").toList), Clause.conn Connector.and,
                 Clause.cond (("y").toList) c3Gov (("2").toList)] ∧
    pySlice 7 9 c3Logic = ("10").toList ∧
    ("1").toList ≠ ("10").toList :=
  ⟨rfl, rfl, by decide⟩

/-- C3 (amended): every Condition of a successfully compiled rule carries
an expected value of exactly one character — the single character
immediately following the opening quote — so any longer quoted value is
truncated to its first character. -/
theorem c3_amended (g l : Str) (ps : List Clause) (h : compile g l = some ps) :
    ps.all expectedLen1 = true :=
  parseLoop_expected h rfl

/-- C3 witness: the amended theorem applied to the concrete rule of the
counterexample. -/
theorem c3_amended_witness :
    ([Clause.cond (("x").toList) c3Gov (("1").toList), Clause.conn Connector.and,
      Clause.cond (("y").toList) c3Gov (("2").toList)] : List Clause).all expectedLen1 = true :=
  c3_amended c3Gov c3Logic _ rfl

def c4Meta : List (Str × Str) :=
  [(("f1").toList, ("[miss] = '1'").toList), (("f2").toList, ("[a] = '2'").toList)]

def c4Recs : List Record :=
  [[(("a").toList, ("1").toList), (("f1").toList, ("x").toList),
    (("f2").toList, ("y").toList)]]

def c4Ps : List (List Clause) := (compileAll c4Meta).getD []

def c4St : QState :=
  ⟨1, [WrongEntry.pair 0 (("a").toList)], [("f1").toList ++ nidMsg]⟩

/-- C4: counterexample.  One record, two rules: the first rule references
a field absent from the schema (its pair is skipped with a warning), the
second is violated.  The code scores `count / (records × rules) × 100 =
1/2 × 100 = 50`: the skipped pair stays in the denominator and is counted
as consistent in the numerator.  The claim's formula — skipped pairs
excluded from both numerator and denominator — gives `(2 − 1 − 1)/(2 − 1)
× 100 = 0`.  The two disagree. -/
theorem c4_counterexample :
    runQualityEnhanced c4Meta c4Recs = Except.ok (c4St, (50 : ℚ)) ∧
    specScoreSkipAware 1 2 1 1 = some 0 ∧
    (50 : ℚ) ≠ 0 := by
  refine ⟨?_, ?_, by norm_num⟩
  · have h : runQualityEnhanced c4Meta c4Recs =
        Except.ok (c4St,
          (((1 : Nat) : ℚ) / (((1 : Nat) : ℚ) * ((2 : Nat) : ℚ))) * 100) := rfl
    rw [h]
    norm_num
  · have h : specScoreSkipAware 1 2 1 1 =
        some ((((1 * 2 - 1 - 1 : Nat)) : ℚ) / (((1 * 2 - 1 : Nat)) : ℚ) * 100) := by
      simp [specScoreSkipAware]
    rw [h]
    norm_num

/-- C4 (amended): the final quality score is `count / (records × rules) ×
100` where `count` always equals records × rules minus the number of
flagged violations: a pair skipped on a missing field stays in the
denominator and is counted as consistent in the numerator, changing
neither `count` nor `wrongRows`. -/
theorem c4_amended (records : List Record) (ps : List (List Clause)) (st : QState)
    (h : runChecker records ps = Except.ok st) :
    st.count + st.wrongRows.length = records.length * ps.length ∧
    (records.length * ps.length ≠ 0 →
      finalQuality st.count records.length ps.length =
        Except.ok ((((records.length * ps.length - st.wrongRows.length : Nat) : ℚ) /
          ((records.length : ℚ) * (ps.length : ℚ))) * 100)) := by
  have h1 := (checkAll_invariant h).1
  simp only [List.length_nil] at h1
  constructor
  · omega
  · intro hne
    have hc : st.count = records.length * ps.length - st.wrongRows.length := by omega
    unfold finalQuality
    rw [if_neg hne, hc]

/-- C4 witness: the amended theorem applied to the counterexample run. -/
theorem c4_amended_witness :
    c4St.count + c4St.wrongRows.length = c4Recs.length * c4Ps.length ∧
    (c4Recs.length * c4Ps.length ≠ 0 →
      finalQuality c4St.count c4Recs.length c4Ps.length =
        Except.ok ((((c4Recs.length * c4Ps.length - c4St.wrongRows.length : Nat) : ℚ) /
          ((c4Recs.length : ℚ) * (c4Ps.length : ℚ))) * 100)) :=
  c4_amended c4Recs c4Ps c4St rfl

def c5Meta : List (Str × Str) :=
  [(("symptom_detail").toList, ("[has_symptom] = '1'").toList)]

def c5MetaW : List (Str × Str) :=
  [(("f1").toList, ("[a] = '1'").toList), (("f2").toList, ("[b] = '0'").toList)]

/-- C5: counterexample.  With zero records the enhanced run raises
`ZeroDivisionError` from `count / (redcapDB.shape[0] * len(processes))`:
it does not return a sentinel score. -/
theorem c5_counterexample :
    runQualityEnhanced c5Meta [] = Except.error "ZeroDivisionError" := rfl

/-- C5 (amended): whenever the metadata compiles, running the enhanced
check with zero records raises `ZeroDivisionError` (no sentinel value is
ever produced). -/
theorem c5_amended (metadata : List (Str × Str)) (ps : List (List Clause))
    (h : compileAll metadata = some ps) :
    runQualityEnhanced metadata [] = Except.error "ZeroDivisionError" := by
  unfold runQualityEnhanced
  rw [h]
  simp [runChecker, checkAll, finalQuality]

/-- C5 witness: the amended theorem at a two-rule metadata set. -/
theorem c5_amended_witness :
    runQualityEnhanced c5MetaW [] = Except.error "ZeroDivisionError" :=
  c5_amended c5MetaW ((compileAll c5MetaW).getD []) rfl

def c6Meta : List (Str × Str) := [(("b").toList, ("[a] = '1'").toList)]

def c6Recs : List Record := [[(("a").toList, ("1").toList), (("b").toList, ([] : Str))]]

/-- C6: the record has `a = '1'` (the comparison field equals the
expected literal) and an empty governed field `b`, so the claim counts
exactly one violation; the simple script instead compares the governed
field's value (`''`) against the literal (`'1'`), counts nothing, and
reports a 100% quality score.  (With two or more records, reaching the
inner test would instead raise `ValueError`, since `db2[logic[1]] != ''`
puts a whole column in boolean context.) -/
theorem c6_code_result :
    runQualitySimple c6Meta c6Recs = Except.ok (0, (100 : ℚ)) ∧
    rowGet (c6Recs.getD 0 []) (("a").toList) = some (("1").toList) ∧
    rowGet (c6Recs.getD 0 []) (("b").toList) = some ([] : Str) := by
  refine ⟨?_, rfl, rfl⟩
  have h : runQualitySimple c6Meta c6Recs =
      Except.ok (0, ((((1 : Nat) : ℚ) - ((0 : Nat) : ℚ)) / ((1 : Nat) : ℚ)) * 100) := rfl
  rw [h]
  norm_num

def c7Meta : List (Str × Str) := [(("g").toList, ("[b] = '1'").toList)]

def c7Recs : List Record := [[(("g").toList, ("x").toList)]]

/-- C7: counterexample.  The single rule references field `b`, absent
from the record schema, while its governed field is `g`.  The checker
does continue, but the warning it prints is `g not in dataframe` — the
rule's governed field, not the missing field `b` — and the pair is not
skipped from scoring: it stays counted as consistent (final count 1,
score 100), rather than being excluded from the totals. -/
theorem c7_counterexample :
    runQualityEnhanced c7Meta c7Recs =
      Except.ok (⟨1, [], [("g").toList ++ nidMsg]⟩, (100 : ℚ)) ∧
    ("g").toList ++ nidMsg ≠ ("b").toList ++ nidMsg ∧
    (1 : Nat) ≠ 0 := by
  refine ⟨?_, by decide, by decide⟩
  have h : runQualityEnhanced c7Meta c7Recs =
      Except.ok (⟨1, [], [("g").toList ++ nidMsg]⟩,
        (((1 : Nat) : ℚ) / (((1 : Nat) : ℚ) * ((1 : Nat) : ℚ))) * 100) := rfl
  rw [h]
  norm_num

/-- C7 (amended): when a Condition of a rule references a field absent
from the record schema (so building the condition tokens raises
`KeyError`) while the governed field is present and populated, the
checker recovers locally: it catches the error, prints a warning naming
the rule's governed field, leaves the violation list untouched, keeps the
pair counted as consistent (`count` stays incremented), and returns
normally so the pass continues — the missing field never aborts the run. -/
theorem c7_amended (st : QState) (idx : Nat) (row : Record) (ref gov exp : Str)
    (rest : List Clause) (v : Str)
    (hp : (Clause.cond ref gov exp :: rest).length ≠ 2)
    (hv : rowGet row gov = some v) (hne : v ≠ [])
    (hb : buildTokens row (Clause.cond ref gov exp :: rest) = none) :
    checkPair st idx row (Clause.cond ref gov exp :: rest) =
      Except.ok { st with count := st.count + 1,
                          warnings := st.warnings ++ [gov ++ nidMsg] } := by
  unfold checkPair
  dsimp only
  rw [if_neg hp, hv]
  dsimp only
  rw [if_neg hne, hb]

/-- C7 witness: the amended theorem at the counterexample's inputs. -/
theorem c7_amended_witness :
    checkPair ⟨0, [], []⟩ 0 [(("g").toList, ("x").toList)]
        [Clause.cond (("b").toList) (("g").toList) (("1").toList)] =
      Except.ok ⟨1, [], [("g").toList ++ nidMsg]⟩ :=
  c7_amended ⟨0, [], []⟩ 0 [(("g").toList, ("x").toList)]
    (("b").toList) (("g").toList) (("1").toList) [] (("x").toList)
    (by decide) rfl (by decide) rfl

def c8G : Str := ("d").toList

def c8L : Str := ("[a] = '1' and [b] = '0'").toList

def c8Ps : List Clause :=
  [Clause.cond (("a").toList) c8G (("1").toList), Clause.conn Connector.and,
   Clause.cond (("b").toList) c8G (("0").toList)]

/-- C8: a metadata row with empty branching logic contributes no rule
(the filter drops it before compilation), and every successfully compiled
non-empty logic string yields a clause list that alternates
Condition/Connector/…/Condition, with N − 1 Connectors for its N ≥ 1
Conditions. -/
theorem c8_rule_shape :
    (∀ (name : Str) (m : List (Str × Str)),
      compileAll ((name, ([] : Str)) :: m) = compileAll m) ∧
    (∀ (g l : Str) (ps : List Clause), l ≠ [] → compile g l = some ps →
      chainOk ps = true ∧ numConds ps = numConns ps + 1 ∧ 1 ≤ numConds ps) := by
  constructor
  · intro name m
    simp [compileAll, fullBranchingLogics]
  · intro g l ps hne h
    have hc := parseLoop_chain (g := g) h rfl hne
    exact ⟨hc, chainOk_count hc, chainOk_pos hc⟩

/-- C8 witness: the shape theorem at a concrete two-condition rule. -/
theorem c8_rule_shape_witness :
    chainOk c8Ps = true ∧ numConds c8Ps = numConns c8Ps + 1 ∧ 1 ≤ numConds c8Ps :=
  c8_rule_shape.2 c8G c8L c8Ps (by decide) rfl

/-- C9: whenever the parse loop classifies a connector between two
Conditions, the connector is OR exactly when, after skipping a single
optional leading space, the remaining text begins with the character
`o`; any other following text yields AND. -/
theorem c9_connector_or_iff (l rest : Str) (k : Connector)
    (h : afterCondition l = some (k, rest)) :
    k = Connector.or ↔ (skipOneSpace l).head? = some 'o' := by
  unfold afterCondition at h
  cases l with
  | nil => simp at h
  | cons ch tl =>
    dsimp only at h
    by_cases hsp : ch = ' '
    · rw [if_pos hsp] at h
      cases tl with
      | nil => simp at h
      | cons c2 t2 =>
        dsimp only at h
        simp only [skipOneSpace, if_pos hsp, List.head?_cons]
        by_cases ho : c2 = 'o'
        · rw [if_pos ho] at h
          cases hf : List.findIdx? (fun c => c = '[') (c2 :: t2) with
          | none => rw [hf] at h; simp at h
          | some i =>
            rw [hf] at h
            simp only [Option.some.injEq, Prod.mk.injEq] at h
            simp [← h.1, ho]
        · rw [if_neg ho] at h
          cases hf : List.findIdx? (fun c => c = '[') (c2 :: t2) with
          | none => rw [hf] at h; simp at h
          | some i =>
            rw [hf] at h
            simp only [Option.some.injEq, Prod.mk.injEq] at h
            simp only [← h.1, Option.some.injEq]
            constructor
            · intro hk
              exact absurd hk (by simp)
            · intro hc
              exact absurd hc ho
    · rw [if_neg hsp] at h
      dsimp only at h
      simp only [skipOneSpace, if_neg hsp, List.head?_cons]
      by_cases ho : ch = 'o'
      · rw [if_pos ho] at h
        cases hf : List.findIdx? (fun c => c = '[') (ch :: tl) with
        | none => rw [hf] at h; simp at h
        | some i =>
          rw [hf] at h
          simp only [Option.some.injEq, Prod.mk.injEq] at h
          simp [← h.1, ho]
      · rw [if_neg ho] at h
        cases hf : List.findIdx? (fun c => c = '[') (ch :: tl) with
        | none => rw [hf] at h; simp at h
        | some i =>
          rw [hf] at h
          simp only [Option.some.injEq, Prod.mk.injEq] at h
          simp only [← h.1, Option.some.injEq]
          constructor
          · intro hk
            exact absurd hk (by simp)
          · intro hc
            exact absurd hc ho

/-- C9 witness: the classification theorem at the text ` or [b] = '1'`,
whose connector is OR. -/
theorem c9_connector_or_iff_witness :
    Connector.or = Connector.or ↔
      (skipOneSpace ((" or [b] = '1'").toList)).head? = some 'o' :=
  c9_connector_or_iff ((" or [b] = '1'").toList) (("[b] = '1'").toList)
    Connector.or rfl

/-- C10: in the boolean-chain branch of the enhanced checker (any process
whose length is not 2, as holds for every compiled rule), a record whose
governed field is present but empty is never appended to the violation
list and is always counted toward the consistent total — the pair's only
effect is `count + 1` — irrespective of the rule's conditions, connectors
or truth value. -/
theorem c10_empty_governed_consistent (st : QState) (idx : Nat) (row : Record)
    (ref gov exp : Str) (rest : List Clause)
    (hp : (Clause.cond ref gov exp :: rest).length ≠ 2)
    (hv : rowGet row gov = some ([] : Str)) :
    checkPair st idx row (Clause.cond ref gov exp :: rest) =
      Except.ok { st with count := st.count + 1 } := by
  unfold checkPair
  dsimp only
  rw [if_neg hp, hv]
  dsimp only
  rw [if_pos rfl]

/-- C10 witness: a concrete empty-governed record under a true rule is
counted consistent with no violation entry. -/
theorem c10_empty_governed_witness :
    checkPair ⟨0, [], []⟩ 0 [(("g").toList, ([] : Str)), (("b").toList, ("1").toList)]
        [Clause.cond (("b").toList) (("g").toList) (("1").toList)] =
      Except.ok ⟨1, [], []⟩ :=
  c10_empty_governed_consistent ⟨0, [], []⟩ 0
    [(("g").toList, ([] : Str)), (("b").toList, ("1").toList)]
    (("b").toList) (("g").toList) (("1").toList) [] (by decide) rfl
